import Mathlib

/-!
Shallow embedding of the pricing-calculator core (`src/src/App.tsx`, the
autosave variant at lines 649–1035, together with `isBlankNewItem` from the
manual-save variant at lines 52–58, which is textually identical to the
inline `isEmpty` predicate of the autosave effect).

Modelling conventions:
* JavaScript numbers are modelled by `ℚ` wherever the code only needs exact
  field arithmetic and equality tests.  The non-finite behaviour of IEEE
  doubles (`NaN`, `±Infinity`) is modelled separately by the inductive type
  `JNum`, used for the claims about non-finite inputs.
* `nanoid()` is an injectable identifier generator: every operation that may
  generate an identifier takes the generated string `g` as an explicit
  argument.  `nanoid` never returns the empty string; where that matters it
  appears as a hypothesis `g ≠ ""`.
* A numeric text input is modelled by `Option ℚ`: `some q` when
  `Number(value)` is the finite number `q`, `none` when it is `NaN`.
  `Number(value) || 0` then becomes `(v.getD 0)` (note `Number("") = 0` and
  `0 || 0 = 0`, so the empty string is also covered by `some 0`).
* React state updates are modelled as pure state transformers; the component
  state visible to the claims is collected in `AppState`, and the event
  handlers plus the debounced autosave effect become a `step` function on it.
-/

namespace PricingCalc

/-- The `Item` record (`App.tsx` lines 656–664), numeric fields as `ℚ`.
`profitPercent` is `ℚ` here; the TS type restricts it to `0.2 | 0.25 | 0.3`
and the code re-validates it on every read path. -/
structure Item where
  id : String
  name : String
  quantity : ℚ
  pricePerItem : ℚ
  setupFee : ℚ
  shipping : ℚ
  profitPercent : ℚ
deriving DecidableEq, Repr

/-- `PROFIT_OPTIONS` (line 668). -/
def PROFIT_OPTIONS : List ℚ := [0.2, 0.25, 0.3]

/-- `createEmptyItem` (lines 680–688). -/
def createEmptyItem : Item :=
  { id := ""
    name := "Untitled"
    quantity := 0
    pricePerItem := 0
    setupFee := 0
    shipping := 0
    profitPercent := 0.2 }

/-- Result record of `calculateTotals`. -/
structure Totals where
  subtotal : ℚ
  profitValue : ℚ
  total : ℚ
deriving DecidableEq, Repr

/-- `calculateTotals` (lines 690–699): clamp the four cost fields to `≥ 0`,
then `subtotal = qty*perItem + setup + shipping`, `profitValue = subtotal *
profitPercent`, `total = subtotal + profitValue`. -/
def calculateTotals (item : Item) : Totals :=
  let qty := max 0 item.quantity
  let perItem := max 0 item.pricePerItem
  let setup := max 0 item.setupFee
  let shipping := max 0 item.shipping
  let subtotal := qty * perItem + setup + shipping
  let profitValue := subtotal * item.profitPercent
  let total := subtotal + profitValue
  { subtotal := subtotal, profitValue := profitValue, total := total }

/-- `isBlankNewItem` (lines 52–58), textually identical to the inline
`isEmpty` predicate of the autosave effect (lines 800–806): empty id, name
trimmed/lower-cased equal to `"untitled"`, and all four cost fields `0`. -/
def isBlankNewItem (item : Item) : Bool :=
  item.id == "" &&
  item.name.trim.toLower == "untitled" &&
  item.quantity == 0 &&
  item.pricePerItem == 0 &&
  item.setupFee == 0 &&
  item.shipping == 0

/-- `upsertItem` (lines 736–747) as a pure function of the saved collection.
`g` is the string `nanoid()` would return.  Returns the updated collection
(what `persistItems` writes) and the returned `nextItem`. -/
def upsertItem (saved : List Item) (g : String) (item : Item) : List Item × Item :=
  let id := if item.id == "" then g else item.id
  let nextItem : Item := { item with id := id }
  let updated :=
    if saved.any (fun s => s.id == id) then
      saved.map (fun s => if s.id == id then nextItem else s)
    else
      saved ++ [nextItem]
  (updated, nextItem)

/-- The four numeric fields (`NumericField`, line 666). -/
inductive NumField where
  | quantity
  | pricePerItem
  | setupFee
  | shipping
deriving DecidableEq, Repr

/-- `handleNumberChange` (lines 749–755): anchor (`id: prev.id || nanoid()`)
and set the field to `Number(value) || 0`, i.e. `v.getD 0`. -/
def handleNumberChange (field : NumField) (prev : Item) (g : String) (v : Option ℚ) : Item :=
  let anchored := if prev.id == "" then g else prev.id
  match field with
  | .quantity => { prev with id := anchored, quantity := v.getD 0 }
  | .pricePerItem => { prev with id := anchored, pricePerItem := v.getD 0 }
  | .setupFee => { prev with id := anchored, setupFee := v.getD 0 }
  | .shipping => { prev with id := anchored, shipping := v.getD 0 }

/-- `handleNameChange` (lines 757–763): anchor and set
`name: value || 'Untitled'`. -/
def handleNameChange (prev : Item) (g : String) (value : String) : Item :=
  { prev with
    id := if prev.id == "" then g else prev.id
    name := if value == "" then "Untitled" else value }

/-- `handleProfitChange` (lines 765–772): anchor and set the profit rate,
falling back to `0.2` when `Number(value)` is not in `PROFIT_OPTIONS`
(`v = none` models `NaN`, which is never in the list). -/
def handleProfitChange (prev : Item) (g : String) (v : Option ℚ) : Item :=
  { prev with
    id := if prev.id == "" then g else prev.id
    profitPercent :=
      match v with
      | some p => if PROFIT_OPTIONS.contains p then p else 0.2
      | none => 0.2 }

/-- A persisted record as recovered by `JSON.parse`: each field either absent
(`none`) or present with a value of the field's type.  (A present field of
the wrong runtime type is outside this model; the claims only speak about
missing fields and out-of-range `profitPercent`.) -/
structure RawRecord where
  id : Option String
  name : Option String
  quantity : Option ℚ
  pricePerItem : Option ℚ
  setupFee : Option ℚ
  shipping : Option ℚ
  profitPercent : Option ℚ
deriving DecidableEq, Repr

/-- The state of the durable medium as seen by `loadSavedItems`:
`localStorage.getItem` returned nothing (`missing`), `JSON.parse` threw
(`malformed`), the parse succeeded but was not an array (`nonArray`), or it
was an array of records (`array`). -/
inductive Payload where
  | missing
  | malformed
  | nonArray
  | array (records : List RawRecord)
deriving DecidableEq, Repr

/-- The per-record recovery `{...createEmptyItem(), ...item, profitPercent:
PROFIT_OPTIONS.includes(item.profitPercent) ? item.profitPercent : 0.2}`
(lines 707–713): spread backfills absent fields from the defaults, and the
`profitPercent` override is computed from the raw field (absent models
`undefined`, and `includes(undefined)` is `false`). -/
def recoverItem (r : RawRecord) : Item :=
  { id := r.id.getD createEmptyItem.id
    name := r.name.getD createEmptyItem.name
    quantity := r.quantity.getD createEmptyItem.quantity
    pricePerItem := r.pricePerItem.getD createEmptyItem.pricePerItem
    setupFee := r.setupFee.getD createEmptyItem.setupFee
    shipping := r.shipping.getD createEmptyItem.shipping
    profitPercent :=
      match r.profitPercent with
      | some p => if PROFIT_OPTIONS.contains p then p else 0.2
      | none => 0.2 }

/-- `loadSavedItems` (lines 701–718): empty/missing raw value, a parse
exception, or a non-array parse all yield `[]`; an array is mapped through
the per-record recovery. -/
def loadSavedItems : Payload → List Item
  | .missing => []
  | .malformed => []
  | .nonArray => []
  | .array records => records.map recoverItem

/-! ## IEEE-style extended numbers, for the non-finite-input claims

`JNum` models a JavaScript number as either a finite (exact) value, an
infinity, or `NaN`.  The operations below follow the IEEE-754 special-value
rules for the three operations `calculateTotals` and `formatCurrency` use:
`Math.max(0, ·)`, `*`, `+`.  Finite arithmetic is exact rather than rounded;
the non-finite propagation — the only thing the claims about non-finite
inputs turn on — is faithful. -/

inductive JNum where
  | finite (q : ℚ)
  | posInf
  | negInf
  | nan
deriving DecidableEq, Repr

/-- `Math.max(0, x)`: `NaN` if `x` is `NaN`, otherwise the larger value. -/
def JNum.max0 : JNum → JNum
  | .finite q => .finite (max 0 q)
  | .posInf => .posInf
  | .negInf => .finite 0
  | .nan => .nan

/-- IEEE multiplication on extended numbers (`0 * ±∞ = NaN`). -/
def JNum.mul : JNum → JNum → JNum
  | .nan, _ => .nan
  | _, .nan => .nan
  | .finite a, .finite b => .finite (a * b)
  | .finite a, .posInf => if 0 < a then .posInf else if a < 0 then .negInf else .nan
  | .finite a, .negInf => if 0 < a then .negInf else if a < 0 then .posInf else .nan
  | .posInf, .finite b => if 0 < b then .posInf else if b < 0 then .negInf else .nan
  | .negInf, .finite b => if 0 < b then .negInf else if b < 0 then .posInf else .nan
  | .posInf, .posInf => .posInf
  | .posInf, .negInf => .negInf
  | .negInf, .posInf => .negInf
  | .negInf, .negInf => .posInf

/-- IEEE addition on extended numbers (`∞ + (−∞) = NaN`). -/
def JNum.add : JNum → JNum → JNum
  | .nan, _ => .nan
  | _, .nan => .nan
  | .finite a, .finite b => .finite (a + b)
  | .posInf, .negInf => .nan
  | .negInf, .posInf => .nan
  | .posInf, _ => .posInf
  | _, .posInf => .posInf
  | .negInf, _ => .negInf
  | _, .negInf => .negInf

/-- `Number.isFinite`. -/
def JNum.isFinite : JNum → Bool
  | .finite _ => true
  | _ => false

/-- An `Item` whose cost fields carry extended numbers.  `profitPercent`
stays rational: the TS type and every write path confine it to
`{0.2, 0.25, 0.3}`. -/
structure JItem where
  quantity : JNum
  pricePerItem : JNum
  setupFee : JNum
  shipping : JNum
  profitPercent : ℚ
deriving DecidableEq, Repr

/-- Totals over extended numbers. -/
structure JTotals where
  subtotal : JNum
  profitValue : JNum
  total : JNum
deriving DecidableEq, Repr

/-- `calculateTotals` (lines 690–699) over extended numbers, arithmetic as
IEEE special-value arithmetic. -/
def calculateTotalsJ (item : JItem) : JTotals :=
  let qty := item.quantity.max0
  let perItem := item.pricePerItem.max0
  let setup := item.setupFee.max0
  let shipping := item.shipping.max0
  let subtotal := ((qty.mul perItem).add setup).add shipping
  let profitValue := subtotal.mul (.finite item.profitPercent)
  let total := subtotal.add profitValue
  { subtotal := subtotal, profitValue := profitValue, total := total }

/-- The numeric core of `formatCurrency` (lines 677–678): the value handed to
the display formatter is `Number.isFinite(value) ? value : 0`. -/
def formatCurrency (value : JNum) : JNum :=
  if value.isFinite then value else .finite 0

/-! ## The component state machine

`AppState` collects the component state the claims are about: `current` (the
Draft), `saved` (`savedItems`; `savedItemsRef` and the `localStorage` payload
are kept in lock-step with it by `persistItems`, so one field models all
three), `writes` (the ordered log of durable writes, i.e. of `persistItems`
calls), and `armed` (whether a Draft change since the last debounce
settlement has armed the quiet-period timer; `false` at mount, matching the
`hasMounted` guard that suppresses the initial effect run). -/

structure AppState where
  current : Item
  saved : List Item
  writes : List (List Item)
  armed : Bool
deriving DecidableEq, Repr

/-- A user edit of one Draft field, with the parsed input. -/
inductive EditAction where
  | setNumber (field : NumField) (v : Option ℚ)
  | setName (value : String)
  | setProfit (v : Option ℚ)
deriving DecidableEq, Repr

/-- Dispatch an edit to the matching handler (`g` is the id `nanoid()` would
generate if the Draft is unanchored). -/
def applyEdit (prev : Item) (g : String) : EditAction → Item
  | .setNumber field v => handleNumberChange field prev g v
  | .setName value => handleNameChange prev g value
  | .setProfit v => handleProfitChange prev g v

/-- The events the claims quantify over.  `edit`, `loadItem`, `deleteItem`
and `newItem` are the handlers (lines 749–792); `elapse` is the quiet-period
timer of `useDebounceValue` firing 15 s after the last Draft change, which
runs the autosave effect (lines 794–815) on the settled Draft value. -/
inductive Event where
  | edit (a : EditAction) (g : String)
  | loadItem (id : String)
  | deleteItem (id : String)
  | newItem
  | elapse (g : String)
deriving DecidableEq, Repr

/-- `persistItems` (lines 730–734): set `savedItems` (and its mirror ref) and
synchronously write the whole collection to the durable medium. -/
def persistItems (s : AppState) (items : List Item) : AppState :=
  { s with saved := items, writes := s.writes ++ [items] }

/-- One step of the component.  Every `setCurrent` arms the debounce timer;
`elapse` settles the debounced value to the current Draft and runs the
autosave effect: skip if nothing armed the timer, skip (no write) if the
settled Draft is blank, otherwise upsert-and-persist it. -/
def step (s : AppState) : Event → AppState
  | .edit a g =>
      { s with current := applyEdit s.current g a, armed := true }
  | .loadItem id =>
      match s.saved.find? (fun it => it.id == id) with
      | some it => { s with current := it, armed := true }
      | none => s
  | .deleteItem id =>
      let s' := persistItems s (s.saved.filter (fun it => it.id != id))
      if s.current.id == id then
        { s' with current := createEmptyItem, armed := true }
      else s'
  | .newItem => { s with current := createEmptyItem, armed := true }
  | .elapse g =>
      if s.armed then
        if isBlankNewItem s.current then { s with armed := false }
        else
          let updated := (upsertItem s.saved g s.current).1
          { persistItems s updated with armed := false }
      else s

/-- The state at session mount: an empty Draft, the collection loaded from
the durable medium, no writes yet, timer not armed (the `hasMounted` guard). -/
def initState (p : Payload) : AppState :=
  { current := createEmptyItem
    saved := loadSavedItems p
    writes := []
    armed := false }

/-- An event is a Draft change (arms the debounce timer without writing):
an edit, a reset to a fresh item, or loading a saved item. -/
def Event.isDraftChange : Event → Bool
  | .edit _ _ => true
  | .loadItem _ => true
  | .newItem => true
  | .deleteItem _ => false
  | .elapse _ => false

/-! ## Shared helper lemmas -/

theorem upsertItem_snd_eq (C : List Item) (g : String) (i : Item) :
    (upsertItem C g i).2 = { i with id := if i.id = "" then g else i.id } := by
  by_cases h : i.id = "" <;> simp [upsertItem, h]

theorem upsertItem_snd_id (C : List Item) (g : String) (i : Item) :
    (upsertItem C g i).2.id = if i.id = "" then g else i.id := by
  rw [upsertItem_snd_eq]

/-- Branch-level characterization of `upsertItem`, with the generated
identifier resolved. -/
theorem upsertItem_eq_branches (C : List Item) (g : String) (i : Item) (idv : String)
    (hidv : idv = if i.id = "" then g else i.id) :
    upsertItem C g i =
      (if C.any (fun s => s.id == idv)
       then C.map (fun s => if s.id == idv then { i with id := idv } else s)
       else C ++ [{ i with id := idv }],
       { i with id := idv }) := by
  subst hidv
  by_cases h : i.id = "" <;> simp [upsertItem, h]

theorem mem_update_branches (C : List Item) (n : Item) (idv : String) :
    n ∈ (if C.any (fun s => s.id == idv)
         then C.map (fun s => if s.id == idv then n else s)
         else C ++ [n]) := by
  split
  · next hany =>
    rcases List.any_eq_true.mp hany with ⟨x, hxC, hxid⟩
    exact List.mem_map.mpr ⟨x, hxC, if_pos hxid⟩
  · exact List.mem_append_right _ (List.mem_singleton.mpr rfl)

theorem mem_update_branches_elim (C : List Item) (n : Item) (idv : String) :
    ∀ x ∈ (if C.any (fun s => s.id == idv)
           then C.map (fun s => if s.id == idv then n else s)
           else C ++ [n]), x = n ∨ x ∈ C := by
  intro x hx
  split at hx
  · rcases List.mem_map.mp hx with ⟨a, haC, hax⟩
    by_cases ha : (a.id == idv) = true
    · left; rw [if_pos ha] at hax; exact hax.symm
    · right; rw [if_neg ha] at hax; exact hax ▸ haC
  · rcases List.mem_append.mp hx with h | h
    · exact Or.inr h
    · exact Or.inl (List.mem_singleton.mp h)

theorem upsertItem_mem_snd (C : List Item) (g : String) (i : Item) :
    (upsertItem C g i).2 ∈ (upsertItem C g i).1 := by
  rw [upsertItem_eq_branches C g i (if i.id = "" then g else i.id) rfl]
  exact mem_update_branches C _ _

theorem upsertItem_mem_fst (C : List Item) (g : String) (i : Item) :
    ∀ x ∈ (upsertItem C g i).1, x = (upsertItem C g i).2 ∨ x ∈ C := by
  intro x hx
  rw [upsertItem_eq_branches C g i (if i.id = "" then g else i.id) rfl] at hx ⊢
  exact mem_update_branches_elim C _ _ x hx

theorem map_replace_of_nodup (C : List Item) (n : Item) (idv : String)
    (hnodup : (C.map Item.id).Nodup) (k : Nat) (hk : k < C.length)
    (hkid : (C.get ⟨k, hk⟩).id = idv) :
    C.map (fun s => if s.id == idv then n else s) = C.set k n := by
  induction C generalizing k with
  | nil => exact absurd hk (by simp)
  | cons h t ih =>
    rw [List.map_cons] at hnodup
    have hnotin : h.id ∉ t.map Item.id := (List.nodup_cons.mp hnodup).1
    rcases k with _ | k
    · have hhid : h.id = idv := hkid
      have htail : t.map (fun s => if s.id == idv then n else s) = t := by
        have hcongr : ∀ s ∈ t, (if s.id == idv then n else s) = id s := by
          intro s hs
          have hne : s.id ≠ idv := by
            intro hEq
            apply hnotin
            have h2 : h.id = s.id := hhid.trans hEq.symm
            rw [h2]
            exact List.mem_map.mpr ⟨s, hs, rfl⟩
          simp [hne]
        rw [List.map_congr_left hcongr, List.map_id]
      rw [List.map_cons, if_pos (by simp [hhid]), htail, List.set_cons_zero]
    · have hkid' : (t.get ⟨k, Nat.lt_of_succ_lt_succ hk⟩).id = idv := hkid
      have hidv_mem : idv ∈ t.map Item.id :=
        hkid' ▸ List.mem_map.mpr ⟨_, t.get_mem _ _, rfl⟩
      have hne : h.id ≠ idv := fun hEq => hnotin (hEq ▸ hidv_mem)
      have ht := ih (List.nodup_cons.mp hnodup).2 k (Nat.lt_of_succ_lt_succ hk) hkid'
      rw [List.map_cons, if_neg (by simp [hne]), ht, List.set_cons_succ]

/-- If the item being upserted is not blank, neither is the id-completed item
that actually enters the collection (a changed id can only make the blank
predicate's first conjunct fail). -/
theorem upsertItem_snd_not_blank (C : List Item) (g : String) (i : Item)
    (hi : isBlankNewItem i = false) :
    isBlankNewItem (upsertItem C g i).2 = false := by
  rw [upsertItem_snd_eq]
  by_cases h : i.id = ""
  · by_cases hg : g = ""
    · have heq : ({ i with id := if i.id = "" then g else i.id } : Item) = i := by
        rw [if_pos h, hg, ← h]
      rw [heq]; exact hi
    · rw [if_pos h]
      simp [isBlankNewItem, hg]
  · have heq : ({ i with id := if i.id = "" then g else i.id } : Item) = i := by
      rw [if_neg h]
    rw [heq]; exact hi

theorem update_branches_set (C : List Item) (n : Item) (idv : String)
    (hnodup : (C.map Item.id).Nodup) (k : Fin C.length) (hk : (C.get k).id = idv) :
    (if C.any (fun s => s.id == idv)
     then C.map (fun s => if s.id == idv then n else s)
     else C ++ [n]) = C.set k.val n := by
  have hany : C.any (fun s => s.id == idv) = true :=
    List.any_eq_true.mpr ⟨C.get k, C.get_mem _ _, beq_iff_eq.mpr hk⟩
  rw [if_pos hany]
  exact map_replace_of_nodup C n idv hnodup k.val k.isLt (by simpa using hk)

theorem update_branches_append (C : List Item) (n : Item) (idv : String)
    (hall : ∀ s ∈ C, s.id ≠ idv) :
    (if C.any (fun s => s.id == idv)
     then C.map (fun s => if s.id == idv then n else s)
     else C ++ [n]) = C ++ [n] := by
  have hany : ¬ (C.any (fun s => s.id == idv) = true) := by
    intro h
    rcases List.any_eq_true.mp h with ⟨x, hxC, hxid⟩
    exact hall x hxC (by simpa using hxid)
  rw [if_neg hany]

theorem map_replace_self (C : List Item) (n : Item) (idv : String) (hn : n.id = idv) :
    (C.map (fun s => if s.id == idv then n else s)).map (fun s => if s.id == idv then n else s)
      = C.map (fun s => if s.id == idv then n else s) := by
  rw [List.map_map]
  apply List.map_congr_left
  intro a _
  by_cases ha : (a.id == idv) = true
  · simp [Function.comp, ha, hn]
  · simp [Function.comp, ha]

theorem map_replace_none (C : List Item) (n : Item) (idv : String)
    (hnone : C.any (fun s => s.id == idv) = false) :
    C.map (fun s => if s.id == idv then n else s) = C := by
  have hall := List.any_eq_false.mp hnone
  have hcongr : ∀ s ∈ C, (if s.id == idv then n else s) = id s := by
    intro s hs
    simp [hall s hs]
  rw [List.map_congr_left hcongr, List.map_id]

/-! ## Claim theorems -/

/-- C5: `computeTotals` returns `subtotal = max(0,quantity)*max(0,unitPrice) +
max(0,setupFee) + max(0,shipping)`, `profit = subtotal * profitRate`,
`total = subtotal + profit`; negative inputs act as `0` for this computation
only (clamping the stored fields first does not change the result, and the
item record itself is never mutated — the embedding is a pure function of the
item). -/
theorem calculateTotals_spec (i : Item) :
    (calculateTotals i).subtotal =
      max 0 i.quantity * max 0 i.pricePerItem + max 0 i.setupFee + max 0 i.shipping ∧
    (calculateTotals i).profitValue = (calculateTotals i).subtotal * i.profitPercent ∧
    (calculateTotals i).total = (calculateTotals i).subtotal + (calculateTotals i).profitValue ∧
    calculateTotals
      { i with
        quantity := max 0 i.quantity
        pricePerItem := max 0 i.pricePerItem
        setupFee := max 0 i.setupFee
        shipping := max 0 i.shipping } = calculateTotals i := by
  refine ⟨rfl, rfl, rfl, ?_⟩
  simp [calculateTotals, ← max_assoc]

theorem upsertItem_fst_eq (C : List Item) (g : String) (i : Item) (idv : String)
    (hidv : idv = if i.id = "" then g else i.id) :
    (upsertItem C g i).1 =
      if C.any (fun s => s.id == idv)
      then C.map (fun s => if s.id == idv then { i with id := idv } else s)
      else C ++ [{ i with id := idv }] := by
  rw [upsertItem_eq_branches C g i idv hidv]

theorem upsert_fst_map_self (C : List Item) (g : String) (i : Item) (idv : String)
    (hidv : idv = if i.id = "" then g else i.id) :
    (upsertItem C g i).1.map (fun s => if s.id == idv then { i with id := idv } else s)
      = (upsertItem C g i).1 := by
  rw [upsertItem_fst_eq C g i idv hidv]
  split
  · exact map_replace_self C _ idv rfl
  · next h =>
    have hfalse : C.any (fun s => s.id == idv) = false := Bool.eq_false_iff.mpr h
    rw [List.map_append, map_replace_none C _ idv hfalse]
    have hsingle : [({ i with id := idv } : Item)].map
        (fun s => if s.id == idv then { i with id := idv } else s)
        = [{ i with id := idv }] := by simp
    rw [hsingle]

/-- C3: `upsert` first completes an empty `item.id` with the freshly generated
identifier; if the collection holds an item with the resulting id at position
`k`, the result is the collection with position `k` replaced by the
id-completed item and everything else unchanged; otherwise the id-completed
item is appended at the end (in particular an item with a fresh generated id
is always appended). -/
theorem upsert_reconciler_spec (C : List Item) (i : Item) (g : String)
    (hnodup : (C.map Item.id).Nodup) (hg : g ∉ C.map Item.id) :
    (upsertItem C g i).2 = { i with id := if i.id = "" then g else i.id } ∧
    (∀ k : Fin C.length, (C.get k).id = (upsertItem C g i).2.id →
        (upsertItem C g i).1 = C.set k.val (upsertItem C g i).2) ∧
    ((∀ s ∈ C, s.id ≠ (upsertItem C g i).2.id) →
        (upsertItem C g i).1 = C ++ [(upsertItem C g i).2]) ∧
    (i.id = "" → (upsertItem C g i).1 = C ++ [(upsertItem C g i).2]) := by
  have hb := upsertItem_eq_branches C g i (if i.id = "" then g else i.id) rfl
  have hsnd := upsertItem_snd_id C g i
  refine ⟨upsertItem_snd_eq C g i, ?_, ?_, ?_⟩
  · intro k hk
    rw [hb]
    exact update_branches_set C _ _ hnodup k (hk.trans hsnd)
  · intro hall
    rw [hb]
    refine update_branches_append C _ _ ?_
    intro s hs hEq
    exact hall s hs (hEq.trans hsnd.symm)
  · intro hid
    rw [hb]
    refine update_branches_append C _ _ ?_
    intro s hs hEq
    apply hg
    have hsg : s.id = g := by rw [hEq, if_pos hid]
    rw [← hsg]
    exact List.mem_map.mpr ⟨s, hs, rfl⟩

theorem upsert_reconciler_spec_witness :
    ((List.map Item.id [({ id := "a", name := "Old", quantity := 1, pricePerItem := 2,
                           setupFee := 3, shipping := 4, profitPercent := 0.25 } : Item)]).Nodup ∧
      "b" ∉ List.map Item.id [({ id := "a", name := "Old", quantity := 1, pricePerItem := 2,
                                 setupFee := 3, shipping := 4,
                                 profitPercent := 0.25 } : Item)]) ∧
    (upsertItem [{ id := "a", name := "Old", quantity := 1, pricePerItem := 2, setupFee := 3,
                   shipping := 4, profitPercent := 0.25 }] "b"
      { id := "", name := "New", quantity := 5, pricePerItem := 6, setupFee := 7,
        shipping := 8, profitPercent := 0.3 }).1 =
      [{ id := "a", name := "Old", quantity := 1, pricePerItem := 2, setupFee := 3,
         shipping := 4, profitPercent := 0.25 },
       { id := "b", name := "New", quantity := 5, pricePerItem := 6, setupFee := 7,
         shipping := 8, profitPercent := 0.3 }] := by
  refine ⟨⟨by decide, by decide⟩, ?_⟩
  have h := (upsert_reconciler_spec
    [{ id := "a", name := "Old", quantity := 1, pricePerItem := 2, setupFee := 3,
       shipping := 4, profitPercent := 0.25 }]
    { id := "", name := "New", quantity := 5, pricePerItem := 6, setupFee := 7,
      shipping := 8, profitPercent := 0.3 }
    "b" (by decide) (by decide)).2.2.2 rfl
  rw [h, upsertItem_snd_eq]
  rfl

/-- C4: upserting twice is idempotent: feeding the item resulting from an
upsert back into `upsert` (with any later generator value), or repeating the
very same call, returns the collection unchanged — no duplication, no
reordering.  `g ≠ ""` reflects that `nanoid()` never returns the empty
string. -/
theorem upsert_idempotent (C : List Item) (i : Item) (g g' : String) (hg : g ≠ "") :
    (upsertItem (upsertItem C g i).1 g' (upsertItem C g i).2).1 = (upsertItem C g i).1 ∧
    (upsertItem (upsertItem C g i).1 g i).1 = (upsertItem C g i).1 := by
  have hne : (if i.id = "" then g else i.id) ≠ "" := by
    by_cases h : i.id = ""
    · rw [if_pos h]; exact hg
    · rw [if_neg h]; exact h
  have hsndid := upsertItem_snd_id C g i
  have hany : (upsertItem C g i).1.any
      (fun s => s.id == (if i.id = "" then g else i.id)) = true :=
    List.any_eq_true.mpr ⟨(upsertItem C g i).2, upsertItem_mem_snd C g i, beq_iff_eq.mpr hsndid⟩
  constructor
  · have hb2 := upsertItem_fst_eq (upsertItem C g i).1 g' (upsertItem C g i).2
      (if i.id = "" then g else i.id) (by rw [hsndid, if_neg hne])
    have hnn : ({ (upsertItem C g i).2 with id := (if i.id = "" then g else i.id) } : Item)
        = (upsertItem C g i).2 := by
      rw [← hsndid]
    rw [hb2, hnn, if_pos hany, upsertItem_snd_eq C g i]
    exact upsert_fst_map_self C g i _ rfl
  · have hb2 := upsertItem_fst_eq (upsertItem C g i).1 g i (if i.id = "" then g else i.id) rfl
    rw [hb2, if_pos hany]
    exact upsert_fst_map_self C g i _ rfl

theorem upsert_idempotent_witness :
    ("x" : String) ≠ "" ∧
    (upsertItem (upsertItem [] "x"
        { id := "", name := "Widget", quantity := 2, pricePerItem := 3, setupFee := 0,
          shipping := 0, profitPercent := 0.2 }).1 "y"
      (upsertItem [] "x"
        { id := "", name := "Widget", quantity := 2, pricePerItem := 3, setupFee := 0,
          shipping := 0, profitPercent := 0.2 }).2).1 =
    (upsertItem [] "x"
        { id := "", name := "Widget", quantity := 2, pricePerItem := 3, setupFee := 0,
          shipping := 0, profitPercent := 0.2 }).1 :=
  ⟨by decide,
    (upsert_idempotent []
      { id := "", name := "Widget", quantity := 2, pricePerItem := 3, setupFee := 0,
        shipping := 0, profitPercent := 0.2 } "x" "y" (by decide)).1⟩

/-- C8: every Draft edit — name, numeric field or profit selection — anchors
an unanchored Draft by assigning the freshly generated (non-empty) identifier
in the same update, applies the field change, and leaves the identifier of an
already-anchored Draft unchanged. -/
theorem anchor_on_first_edit (prev : Item) (g : String) (hg : g ≠ "") :
    (∀ a : EditAction, prev.id = "" →
        (applyEdit prev g a).id = g ∧ (applyEdit prev g a).id ≠ "") ∧
    (∀ a : EditAction, prev.id ≠ "" → (applyEdit prev g a).id = prev.id) ∧
    (∀ v, (applyEdit prev g (.setName v)).name = if v = "" then "Untitled" else v) ∧
    (∀ v, (applyEdit prev g (.setNumber .quantity v)).quantity = v.getD 0) ∧
    (∀ v, (applyEdit prev g (.setNumber .pricePerItem v)).pricePerItem = v.getD 0) ∧
    (∀ v, (applyEdit prev g (.setNumber .setupFee v)).setupFee = v.getD 0) ∧
    (∀ v, (applyEdit prev g (.setNumber .shipping v)).shipping = v.getD 0) ∧
    (∀ v, (applyEdit prev g (.setProfit v)).profitPercent ∈ PROFIT_OPTIONS) := by
  have hid : ∀ a : EditAction, (applyEdit prev g a).id = if prev.id == "" then g else prev.id := by
    intro a
    cases a with
    | setNumber f v => cases f <;> rfl
    | setName v => rfl
    | setProfit v => rfl
  refine ⟨?_, ?_, ?_, ?_, ?_, ?_, ?_, ?_⟩
  · intro a h
    rw [hid, if_pos (beq_iff_eq.mpr h)]
    exact ⟨rfl, hg⟩
  · intro a h
    rw [hid, if_neg (by simpa using h)]
  · intro v
    by_cases hv : v = "" <;> simp [applyEdit, handleNameChange, hv]
  · intro v; rfl
  · intro v; rfl
  · intro v; rfl
  · intro v; rfl
  · intro v
    cases v with
    | none =>
      show (0.2 : ℚ) ∈ PROFIT_OPTIONS
      simp [PROFIT_OPTIONS]
    | some p =>
      show (if PROFIT_OPTIONS.contains p then p else 0.2) ∈ PROFIT_OPTIONS
      split
      · next hc => exact List.elem_iff.mp hc
      · simp [PROFIT_OPTIONS]

theorem anchor_on_first_edit_witness :
    ("a1" : String) ≠ "" ∧ (createEmptyItem.id = "") ∧
    (applyEdit createEmptyItem "a1" (.setName "Widget")).id = "a1" ∧
    (applyEdit createEmptyItem "a1" (.setName "Widget")).name = "Widget" :=
  ⟨by decide, rfl,
    ((anchor_on_first_edit createEmptyItem "a1" (by decide)).1 (.setName "Widget") rfl).1,
    by
      have h := (anchor_on_first_edit createEmptyItem "a1" (by decide)).2.2.1 "Widget"
      rw [h]
      decide⟩

theorem recoverItem_profit_mem (r : RawRecord) :
    (recoverItem r).profitPercent ∈ PROFIT_OPTIONS := by
  show (match r.profitPercent with
        | some p => if PROFIT_OPTIONS.contains p then p else 0.2
        | none => (0.2 : ℚ)) ∈ PROFIT_OPTIONS
  cases r.profitPercent with
  | none => simp [PROFIT_OPTIONS]
  | some q =>
    show (if PROFIT_OPTIONS.contains q then q else 0.2) ∈ PROFIT_OPTIONS
    split
    · next hc => exact List.elem_iff.mp hc
    · simp [PROFIT_OPTIONS]

/-- C7: `load` never propagates a failure — missing, unparseable and
non-array payloads all produce the empty collection — and on an array payload
each recovered record is backfilled with the empty-item defaults for every
absent field, with a `profitPercent` outside the enumerated set coerced to
`0.2` (so every loaded item carries a valid profit rate). -/
theorem load_recovery (p : Payload) :
    ((p = .missing ∨ p = .malformed ∨ p = .nonArray) → loadSavedItems p = []) ∧
    (∀ i ∈ loadSavedItems p, i.profitPercent ∈ PROFIT_OPTIONS) ∧
    (∀ rs, p = .array rs → loadSavedItems p = rs.map recoverItem) ∧
    (∀ r : RawRecord,
      (r.id = none → (recoverItem r).id = createEmptyItem.id) ∧
      (r.name = none → (recoverItem r).name = createEmptyItem.name) ∧
      (r.quantity = none → (recoverItem r).quantity = createEmptyItem.quantity) ∧
      (r.pricePerItem = none → (recoverItem r).pricePerItem = createEmptyItem.pricePerItem) ∧
      (r.setupFee = none → (recoverItem r).setupFee = createEmptyItem.setupFee) ∧
      (r.shipping = none → (recoverItem r).shipping = createEmptyItem.shipping) ∧
      (∀ q, r.profitPercent = some q → q ∉ PROFIT_OPTIONS →
          (recoverItem r).profitPercent = 0.2)) := by
  refine ⟨?_, ?_, ?_, ?_⟩
  · rintro (rfl | rfl | rfl) <;> rfl
  · intro i hi
    cases p with
    | array rs =>
      rcases List.mem_map.mp hi with ⟨r, _, hri⟩
      rw [← hri]
      exact recoverItem_profit_mem r
    | missing => simp [loadSavedItems] at hi
    | malformed => simp [loadSavedItems] at hi
    | nonArray => simp [loadSavedItems] at hi
  · rintro rs rfl
    rfl
  · intro r
    refine ⟨?_, ?_, ?_, ?_, ?_, ?_, ?_⟩
    · intro h; simp [recoverItem, h]
    · intro h; simp [recoverItem, h]
    · intro h; simp [recoverItem, h]
    · intro h; simp [recoverItem, h]
    · intro h; simp [recoverItem, h]
    · intro h; simp [recoverItem, h]
    · intro q hq hmem
      simp [recoverItem, hq]
      intro h
      exact absurd h hmem

theorem load_recovery_witness :
    (Payload.malformed = Payload.missing ∨ Payload.malformed = Payload.malformed ∨
      Payload.malformed = Payload.nonArray) ∧
    loadSavedItems .malformed = [] ∧
    ((0.7 : ℚ) ∉ PROFIT_OPTIONS) ∧
    (recoverItem { id := none, name := none, quantity := none, pricePerItem := none,
                   setupFee := none, shipping := none,
                   profitPercent := some 0.7 }).profitPercent = 0.2 := by
  refine ⟨Or.inr (Or.inl rfl), (load_recovery .malformed).1 (Or.inr (Or.inl rfl)), ?_, ?_⟩
  · norm_num [PROFIT_OPTIONS]
  · exact ((load_recovery .malformed).2.2.2
      { id := none, name := none, quantity := none, pricePerItem := none,
        setupFee := none, shipping := none,
        profitPercent := some 0.7 }).2.2.2.2.2.2 0.7 rfl (by norm_num [PROFIT_OPTIONS])

/-- C9 counterexample: a persisted record whose `name` field is *present but
empty* is recovered with the empty name — the load path only backfills a
missing name, so loading does not always produce a non-empty name. -/
theorem load_keeps_present_empty_name :
    (loadSavedItems (.array [{ id := some "a", name := some "", quantity := none,
                               pricePerItem := none, setupFee := none, shipping := none,
                               profitPercent := none }])).map Item.name = [""] := rfl

/-- C9 amended: an edited Draft's name is never the empty string (a name edit
falls back to `"Untitled"` on empty input and every other edit preserves the
name), a record with a *missing* name field loads as `"Untitled"`, and upsert
introduces no new names (every name in the upserted collection is the
upserted item's name or one already present); but a record persisted with a
present-and-empty name is recovered with that empty name. -/
theorem name_nonempty_amended (prev : Item) (g : String) (C : List Item) (i : Item)
    (r : RawRecord) (hprev : prev.name ≠ "") :
    (∀ a : EditAction, (applyEdit prev g a).name ≠ "") ∧
    (r.name = none → (recoverItem r).name = "Untitled") ∧
    (∀ s ∈ (upsertItem C g i).1, s.name = i.name ∨ s.name ∈ C.map Item.name) := by
  refine ⟨?_, ?_, ?_⟩
  · intro a
    cases a with
    | setName v =>
      show (if v == "" then "Untitled" else v) ≠ ""
      split
      · decide
      · next hv => simpa using hv
    | setNumber f v =>
      have hn : (applyEdit prev g (.setNumber f v)).name = prev.name := by cases f <;> rfl
      rw [hn]; exact hprev
    | setProfit v =>
      show prev.name ≠ ""
      exact hprev
  · intro h
    simp [recoverItem, h, createEmptyItem]
  · intro s hs
    rcases upsertItem_mem_fst C g i s hs with h | h
    · left
      rw [h, upsertItem_snd_eq]
    · right
      exact List.mem_map.mpr ⟨s, h, rfl⟩

theorem name_nonempty_amended_witness :
    (createEmptyItem.name ≠ "") ∧
    (applyEdit createEmptyItem "a1" (.setName "")).name ≠ "" :=
  ⟨by decide,
    (name_nonempty_amended createEmptyItem "a1" [] createEmptyItem
      { id := none, name := none, quantity := none, pricePerItem := none, setupFee := none,
        shipping := none, profitPercent := none } (by decide)).1 (.setName "")⟩

theorem JNum.nan_max0 : JNum.max0 .nan = .nan := rfl

theorem JNum.nan_mul (x : JNum) : JNum.mul .nan x = .nan := by cases x <;> rfl

theorem JNum.nan_add (x : JNum) : JNum.add .nan x = .nan := by cases x <;> rfl

/-- C6 counterexample: a `NaN` quantity is *not* treated as `0` by
`calculateTotals` — `Math.max(0, NaN)` is `NaN` and it propagates into the
subtotal, whereas the same item with quantity `0` yields subtotal `0`. -/
theorem nonfinite_not_zeroed :
    (calculateTotalsJ { quantity := .nan, pricePerItem := .finite 0, setupFee := .finite 0,
                        shipping := .finite 0, profitPercent := 0.2 }).subtotal = .nan ∧
    (calculateTotalsJ { quantity := .finite 0, pricePerItem := .finite 0, setupFee := .finite 0,
                        shipping := .finite 0, profitPercent := 0.2 }).subtotal = .finite 0 ∧
    JNum.nan ≠ JNum.finite 0 := by
  refine ⟨rfl, ?_, by simp⟩
  show JNum.finite (max 0 0 * max 0 0 + max 0 0 + max 0 0) = JNum.finite 0
  norm_num

/-- C6 amended: `calculateTotals` is a pure, deterministic, total function —
it returns a result for every input — but non-finite inputs propagate into
its results (a `NaN` quantity makes subtotal and total `NaN`) instead of
being replaced by `0`; it is the display formatter `formatCurrency` that
substitutes `0` for a non-finite value, so every displayed amount is
finite. -/
theorem calculateTotals_total_and_propagates (i : JItem) :
    (formatCurrency (calculateTotalsJ i).subtotal).isFinite = true ∧
    (formatCurrency (calculateTotalsJ i).profitValue).isFinite = true ∧
    (formatCurrency (calculateTotalsJ i).total).isFinite = true ∧
    (i.quantity = .nan →
        (calculateTotalsJ i).subtotal = .nan ∧ (calculateTotalsJ i).total = .nan) := by
  have hfmt : ∀ v : JNum, (formatCurrency v).isFinite = true := by
    intro v
    cases v <;> rfl
  refine ⟨hfmt _, hfmt _, hfmt _, ?_⟩
  intro hq
  have hsub : (calculateTotalsJ i).subtotal = .nan := by
    show (((i.quantity.max0.mul i.pricePerItem.max0).add i.setupFee.max0).add i.shipping.max0)
        = JNum.nan
    rw [hq, JNum.nan_max0, JNum.nan_mul, JNum.nan_add, JNum.nan_add]
  refine ⟨hsub, ?_⟩
  show ((calculateTotalsJ i).subtotal.add
      ((calculateTotalsJ i).subtotal.mul (.finite i.profitPercent))) = JNum.nan
  rw [hsub, JNum.nan_mul, JNum.nan_add]

theorem calculateTotals_total_and_propagates_witness :
    (({ quantity := .nan, pricePerItem := .finite 0, setupFee := .finite 0,
        shipping := .finite 0, profitPercent := 0.2 } : JItem).quantity = JNum.nan) ∧
    ((calculateTotalsJ { quantity := .nan, pricePerItem := .finite 0, setupFee := .finite 0,
                         shipping := .finite 0, profitPercent := 0.2 }).subtotal = JNum.nan ∧
      (calculateTotalsJ { quantity := .nan, pricePerItem := .finite 0, setupFee := .finite 0,
                          shipping := .finite 0, profitPercent := 0.2 }).total = JNum.nan) :=
  ⟨rfl, (calculateTotals_total_and_propagates
    { quantity := .nan, pricePerItem := .finite 0, setupFee := .finite 0,
      shipping := .finite 0, profitPercent := 0.2 }).2.2.2 rfl⟩

theorem step_delete_eq (s : AppState) (idv : String) :
    step s (.deleteItem idv) =
      (if s.current.id == idv
       then { current := createEmptyItem, armed := true,
              saved := s.saved.filter (fun it => it.id != idv),
              writes := s.writes ++ [s.saved.filter (fun it => it.id != idv)] }
       else { s with
                saved := s.saved.filter (fun it => it.id != idv),
                writes := s.writes ++ [s.saved.filter (fun it => it.id != idv)] }) := by
  by_cases hc : (s.current.id == idv) = true <;> simp [step, persistItems, hc]

theorem step_elapse_eq (s : AppState) (g : String) :
    step s (.elapse g) =
      (if s.armed then
        (if isBlankNewItem s.current then { s with armed := false }
         else { s with
                  armed := false,
                  saved := (upsertItem s.saved g s.current).1,
                  writes := s.writes ++ [(upsertItem s.saved g s.current).1] })
       else s) := by
  by_cases harm : s.armed = true
  · by_cases hblank : isBlankNewItem s.current = true <;>
      simp [step, persistItems, harm, hblank]
  · simp [step, harm]

/-- When the quiet-period timer fires, either nothing is written (timer never
armed, or the Draft is blank) or exactly one write occurs, whose collection
is the upsert of the settled Draft. -/
theorem step_elapse_cases (t : AppState) (g : String) :
    (isBlankNewItem t.current = true →
        (step t (.elapse g)).writes = t.writes ∧ (step t (.elapse g)).saved = t.saved) ∧
    ((step t (.elapse g)).writes = t.writes ∨
      ((step t (.elapse g)).writes = t.writes ++ [(upsertItem t.saved g t.current).1] ∧
        (step t (.elapse g)).saved = (upsertItem t.saved g t.current).1 ∧
        isBlankNewItem t.current = false)) := by
  rw [step_elapse_eq]
  by_cases harm : t.armed = true
  · rw [if_pos harm]
    by_cases hblank : isBlankNewItem t.current = true
    · rw [if_pos hblank]
      exact ⟨fun _ => ⟨rfl, rfl⟩, Or.inl rfl⟩
    · rw [if_neg hblank]
      exact ⟨fun hb => absurd hb hblank,
        Or.inr ⟨rfl, rfl, Bool.eq_false_iff.mpr hblank⟩⟩
  · rw [if_neg harm]
    exact ⟨fun _ => ⟨rfl, rfl⟩, Or.inl rfl⟩

theorem step_draftChange_frame (s : AppState) (e : Event) (he : e.isDraftChange = true) :
    (step s e).writes = s.writes ∧ (step s e).saved = s.saved := by
  cases e with
  | edit a g => exact ⟨rfl, rfl⟩
  | newItem => exact ⟨rfl, rfl⟩
  | loadItem idv =>
    cases hfind : s.saved.find? (fun it => it.id == idv) with
    | none => simp [step, hfind]
    | some it => simp [step, hfind]
  | deleteItem idv => simp [Event.isDraftChange] at he
  | elapse g => simp [Event.isDraftChange] at he

theorem foldl_draftChange_frame (s : AppState) (evs : List Event)
    (h : ∀ e ∈ evs, e.isDraftChange = true) :
    (evs.foldl step s).writes = s.writes ∧ (evs.foldl step s).saved = s.saved := by
  induction evs generalizing s with
  | nil => exact ⟨rfl, rfl⟩
  | cons e t ih =>
    have he := h e (List.mem_cons_self e t)
    have ht : ∀ e' ∈ t, e'.isDraftChange = true :=
      fun e' he' => h e' (List.mem_cons_of_mem e he')
    have hstep := step_draftChange_frame s e he
    have hrest := ih (step s e) ht
    exact ⟨hrest.1.trans hstep.1, hrest.2.trans hstep.2⟩

/-- C1: any finite sequence of Draft changes falling inside one quiet window
produces no durable write while it runs; when the window then elapses, at
most one durable write results, and if one does, its collection is the upsert
of the last Draft value of the sequence — in particular the written
collection contains the id-completed last value, and a sequence abandoned by
a reset (blank settled Draft) writes nothing.  Intermediate values are never
persisted: the only write that can occur carries the final value. -/
theorem debounce_coalescing (s : AppState) (evs : List Event) (g : String)
    (hdc : ∀ e ∈ evs, e.isDraftChange = true) :
    (evs.foldl step s).writes = s.writes ∧
    ((step (evs.foldl step s) (.elapse g)).writes = s.writes ∨
      (step (evs.foldl step s) (.elapse g)).writes =
        s.writes ++ [(upsertItem (evs.foldl step s).saved g (evs.foldl step s).current).1]) ∧
    (∀ W, (step (evs.foldl step s) (.elapse g)).writes = s.writes ++ [W] →
        (upsertItem (evs.foldl step s).saved g (evs.foldl step s).current).2 ∈ W) ∧
    (isBlankNewItem (evs.foldl step s).current = true →
        (step (evs.foldl step s) (.elapse g)).writes = s.writes) := by
  have hfold := foldl_draftChange_frame s evs hdc
  have hec := step_elapse_cases (evs.foldl step s) g
  refine ⟨hfold.1, ?_, ?_, ?_⟩
  · rcases hec.2 with h | ⟨h, _, _⟩
    · left; rw [h, hfold.1]
    · right; rw [h, hfold.1]
  · intro W hW
    rcases hec.2 with h | ⟨h, _, _⟩
    · rw [h, hfold.1] at hW
      simp at hW
    · rw [h, hfold.1] at hW
      simp only [List.append_cancel_left_eq, List.cons.injEq, and_true] at hW
      rw [← hW]
      exact upsertItem_mem_snd _ _ _
  · intro hblank
    rw [(hec.1 hblank).1, hfold.1]

theorem debounce_coalescing_witness :
    (∀ e ∈ [Event.edit (.setName "Widget") "a1"], e.isDraftChange = true) ∧
    ([Event.edit (.setName "Widget") "a1"].foldl step
        (initState .missing)).writes = (initState .missing).writes :=
  ⟨by decide,
    (debounce_coalescing (initState .missing) [Event.edit (.setName "Widget") "a1"] "b1"
      (by decide)).1⟩

theorem step_preserves_no_blank (s : AppState) (e : Event)
    (hsaved : ∀ i ∈ s.saved, isBlankNewItem i = false)
    (hwrites : ∀ W ∈ s.writes, ∀ i ∈ W, isBlankNewItem i = false) :
    (∀ i ∈ (step s e).saved, isBlankNewItem i = false) ∧
    (∀ W ∈ (step s e).writes, ∀ i ∈ W, isBlankNewItem i = false) := by
  cases e with
  | edit a g => exact ⟨hsaved, hwrites⟩
  | newItem => exact ⟨hsaved, hwrites⟩
  | loadItem idv =>
    cases hfind : s.saved.find? (fun it => it.id == idv) with
    | none =>
      constructor <;> simp [step, hfind]
      · exact hsaved
      · exact hwrites
    | some it =>
      constructor <;> simp [step, hfind]
      · exact hsaved
      · exact hwrites
  | deleteItem idv =>
    have hfsub : ∀ i ∈ s.saved.filter (fun it => it.id != idv), isBlankNewItem i = false :=
      fun i hi => hsaved i (List.mem_filter.mp hi).1
    have hw : ∀ W ∈ s.writes ++ [s.saved.filter (fun it => it.id != idv)],
        ∀ i ∈ W, isBlankNewItem i = false := by
      intro W hW
      rcases List.mem_append.mp hW with h | h
      · exact hwrites W h
      · rw [List.mem_singleton.mp h]; exact hfsub
    rw [step_delete_eq]
    by_cases hc : (s.current.id == idv) = true
    · rw [if_pos hc]; exact ⟨hfsub, hw⟩
    · rw [if_neg hc]; exact ⟨hfsub, hw⟩
  | elapse g =>
    rw [step_elapse_eq]
    by_cases harm : s.armed = true
    · rw [if_pos harm]
      by_cases hblank : isBlankNewItem s.current = true
      · rw [if_pos hblank]; exact ⟨hsaved, hwrites⟩
      · rw [if_neg hblank]
        have hbf : isBlankNewItem s.current = false := Bool.eq_false_iff.mpr hblank
        have hup : ∀ i ∈ (upsertItem s.saved g s.current).1, isBlankNewItem i = false := by
          intro i hi
          rcases upsertItem_mem_fst s.saved g s.current i hi with h | h
          · rw [h]; exact upsertItem_snd_not_blank _ _ _ hbf
          · exact hsaved i h
        refine ⟨hup, ?_⟩
        intro W hW
        rcases List.mem_append.mp hW with h | h
        · exact hwrites W h
        · rw [List.mem_singleton.mp h]; exact hup
    · rw [if_neg harm]; exact ⟨hsaved, hwrites⟩

theorem foldl_preserves_no_blank (s : AppState) (evs : List Event)
    (hsaved : ∀ i ∈ s.saved, isBlankNewItem i = false)
    (hwrites : ∀ W ∈ s.writes, ∀ i ∈ W, isBlankNewItem i = false) :
    (∀ i ∈ (evs.foldl step s).saved, isBlankNewItem i = false) ∧
    (∀ W ∈ (evs.foldl step s).writes, ∀ i ∈ W, isBlankNewItem i = false) := by
  induction evs generalizing s with
  | nil => exact ⟨hsaved, hwrites⟩
  | cons e t ih =>
    have hstep := step_preserves_no_blank s e hsaved hwrites
    exact ih (step s e) hstep.1 hstep.2

/-- C2: when the quiet-period timer elapses on a blank Draft (unanchored,
name trimming/lower-casing to `"untitled"`, all four cost fields `0`) no
durable write occurs and the collection is untouched; and along any event
sequence starting from a state whose collection and write log contain no
blank item (e.g. a fresh session over an empty or malformed store), no blank
item ever appears in any persisted collection. -/
theorem blank_guard (s : AppState) (evs : List Event)
    (hsaved : ∀ i ∈ s.saved, isBlankNewItem i = false)
    (hwrites : ∀ W ∈ s.writes, ∀ i ∈ W, isBlankNewItem i = false) :
    (∀ g, isBlankNewItem s.current = true →
        (step s (.elapse g)).writes = s.writes ∧ (step s (.elapse g)).saved = s.saved) ∧
    (∀ W ∈ (evs.foldl step s).writes, ∀ i ∈ W, isBlankNewItem i = false) := by
  exact ⟨fun g hb => (step_elapse_cases s g).1 hb,
    (foldl_preserves_no_blank s evs hsaved hwrites).2⟩

theorem blank_guard_witness :
    (∀ i ∈ (initState .missing).saved, isBlankNewItem i = false) ∧
    (∀ W ∈ (initState .missing).writes, ∀ i ∈ W, isBlankNewItem i = false) ∧
    (∀ W ∈ ([Event.newItem, Event.elapse "b1"].foldl step (initState .missing)).writes,
        ∀ i ∈ W, isBlankNewItem i = false) := by
  refine ⟨?_, ?_, ?_⟩
  · intro i hi; simp [initState, loadSavedItems] at hi
  · intro W hW; simp [initState] at hW
  · exact (blank_guard (initState .missing) [Event.newItem, Event.elapse "b1"]
      (by intro i hi; simp [initState, loadSavedItems] at hi)
      (by intro W hW; simp [initState] at hW)).2

/-- C10: deleting an identifier different from the current Draft's leaves the
Draft (every field, and hence its anchored state) and the armed flag
untouched; the saved collection changes exactly by dropping the items whose
id equals the deleted one (order preserved), and that filtered collection is
the one durably written. -/
theorem delete_frame (s : AppState) (idv : String) (h : s.current.id ≠ idv) :
    (step s (.deleteItem idv)).current = s.current ∧
    (step s (.deleteItem idv)).armed = s.armed ∧
    (∀ it : Item, it ∈ (step s (.deleteItem idv)).saved ↔ it ∈ s.saved ∧ it.id ≠ idv) ∧
    (step s (.deleteItem idv)).writes = s.writes ++ [(step s (.deleteItem idv)).saved] := by
  rw [step_delete_eq, if_neg (by simpa using h)]
  refine ⟨rfl, rfl, ?_, rfl⟩
  intro it
  constructor
  · intro hit
    have hm := List.mem_filter.mp hit
    exact ⟨hm.1, by simpa using hm.2⟩
  · rintro ⟨h1, h2⟩
    exact List.mem_filter.mpr ⟨h1, by simpa using h2⟩

theorem delete_frame_witness :
    (({ current := createEmptyItem,
        saved := [{ id := "z", name := "Gone", quantity := 1, pricePerItem := 1,
                    setupFee := 0, shipping := 0, profitPercent := 0.2 }],
        writes := [], armed := false } : AppState).current.id ≠ "z") ∧
    (step { current := createEmptyItem,
            saved := [{ id := "z", name := "Gone", quantity := 1, pricePerItem := 1,
                        setupFee := 0, shipping := 0, profitPercent := 0.2 }],
            writes := [], armed := false } (.deleteItem "z")).current = createEmptyItem :=
  ⟨by decide,
    (delete_frame
      { current := createEmptyItem,
        saved := [{ id := "z", name := "Gone", quantity := 1, pricePerItem := 1,
                    setupFee := 0, shipping := 0, profitPercent := 0.2 }],
        writes := [], armed := false } "z" (by decide)).1⟩

end PricingCalc
